import Mathlib

/-!
# Verification of the cellguard framing/codec layer

Shallow embedding of the COBS byte-stuffing codec
(`libraries/cellagent-protocol/src/cobs/{encode,decode}.rs`) and of the
ADS131M08 frame/CRC/command layer (`libraries/ads131m08/src/{lib,command}.rs`),
together with proofs of the specification's claims about them.

Bytes are modelled as `Nat` values; theorems carry `< 256` hypotheses where
the byte range matters.  16-bit machine arithmetic is modelled with explicit
`% 65536` where the source can overflow.
-/

namespace Cobs

/-! ## Encoder (`cobs/encode.rs`) -/

/-- One block of the input, as produced by `split_first_block`:
`data` is the zero-free block body, `zero` records whether the block was
terminated by a zero byte of the input (which is elided), and `rest` is the
input remaining after the block (and after the elided zero, if any). -/
structure Block where
  data : List Nat
  zero : Bool
  rest : List Nat
deriving DecidableEq, Repr

/-- `split_first_block` from `encode.rs`: find the first zero among the next
254 bytes; if present the block is everything before it (the zero is
consumed), otherwise the block is the next `min len 254` bytes. -/
def split_first_block (buf : List Nat) : Block :=
  match (buf.take 254).findIdx? (fun b => b == 0) with
  | some idx => { data := buf.take idx, zero := true, rest := buf.drop (idx + 1) }
  | none =>
    let len := min buf.length 254
    { data := buf.take len, zero := false, rest := buf.drop len }

/-- Encoder state machine from `encode.rs` (`EncoderState`). -/
inductive EncoderState where
  | start (data : List Nat)
  | block (b : Block)
  | done
deriving DecidableEq, Repr

/-- `EncoderState::pull`: emit the next output byte (`none` = end of
sequence) and the successor state.  The code byte `(block.data.len() + 1) as
u8` is modelled with an explicit `% 256`. -/
def EncoderState.pull : EncoderState → Option Nat × EncoderState
  | .start data =>
    let b := split_first_block data
    (some ((b.data.length + 1) % 256), .block b)
  | .block ⟨[], false, []⟩ => (some 0, .done)
  | .block ⟨[], true, rest⟩ =>
    let b := split_first_block rest
    (some ((b.data.length + 1) % 256), .block b)
  | .block ⟨[], false, r :: rest⟩ =>
    let b := split_first_block (r :: rest)
    (some ((b.data.length + 1) % 256), .block b)
  | .block ⟨f :: d, z, rest⟩ => (some f, .block ⟨d, z, rest⟩)
  | .done => (none, .done)

/-- Termination measure for pulling the encoder to exhaustion. -/
def EncoderState.wsize : EncoderState → Nat
  | .start p => 3 * p.length + 3
  | .block b => 2 * b.data.length + 3 * b.rest.length + (if b.zero then 2 else 0) + 1
  | .done => 0

theorem split_first_block_wsize (buf : List Nat) :
    2 * (split_first_block buf).data.length + 3 * (split_first_block buf).rest.length +
      (if (split_first_block buf).zero then 2 else 0) + 1 ≤ 3 * buf.length + 1 := by
  unfold split_first_block
  cases h : (buf.take 254).findIdx? (fun b => b == 0) with
  | none =>
    simp [List.length_take, List.length_drop]
    omega
  | some idx =>
    obtain ⟨hlt, -, -⟩ := List.findIdx?_eq_some_iff_getElem.mp h
    rw [List.length_take] at hlt
    simp [List.length_take, List.length_drop]
    omega

theorem split_first_block_wsize_of_ne_nil (buf : List Nat) (h : buf ≠ []) :
    2 * (split_first_block buf).data.length + 3 * (split_first_block buf).rest.length +
      (if (split_first_block buf).zero then 2 else 0) + 1 ≤ 3 * buf.length := by
  unfold split_first_block
  cases hf : (buf.take 254).findIdx? (fun b => b == 0) with
  | none =>
    have hlen : buf.length ≠ 0 := fun hc => h (List.length_eq_zero.mp hc)
    simp [List.length_take, List.length_drop]
    omega
  | some idx =>
    obtain ⟨hlt, -, -⟩ := List.findIdx?_eq_some_iff_getElem.mp hf
    rw [List.length_take] at hlt
    simp [List.length_take, List.length_drop]
    omega

/-- The full output of the encoder: the sequence of bytes obtained by calling
`pull` until it returns `none`.  (`encoderOutput_pull` below certifies that
this function agrees with iterating `EncoderState.pull`.) -/
def encoderOutput : EncoderState → List Nat
  | .start data =>
    ((split_first_block data).data.length + 1) % 256 ::
      encoderOutput (.block (split_first_block data))
  | .block ⟨[], false, []⟩ => [0]
  | .block ⟨[], true, rest⟩ =>
    ((split_first_block rest).data.length + 1) % 256 ::
      encoderOutput (.block (split_first_block rest))
  | .block ⟨[], false, r :: rest⟩ =>
    ((split_first_block (r :: rest)).data.length + 1) % 256 ::
      encoderOutput (.block (split_first_block (r :: rest)))
  | .block ⟨f :: d, z, rest⟩ => f :: encoderOutput (.block ⟨d, z, rest⟩)
  | .done => []
termination_by s => s.wsize
decreasing_by
  · have h := split_first_block_wsize data
    simp only [EncoderState.wsize, List.length_cons]
    cases hz : (split_first_block data).zero <;> simp [hz] at h ⊢ <;> omega
  · have h := split_first_block_wsize rest
    simp only [EncoderState.wsize, List.length_cons]
    cases hz : (split_first_block rest).zero <;> simp [hz] at h ⊢ <;> omega
  · have h := split_first_block_wsize_of_ne_nil (r :: rest) (by simp)
    simp only [EncoderState.wsize, List.length_cons]
    cases hz : (split_first_block (r :: rest)).zero <;> simp [hz] at h ⊢ <;> omega
  · simp only [EncoderState.wsize, List.length_cons]
    cases z <;> simp

theorem encoderOutput_done : encoderOutput .done = [] := by
  simp [encoderOutput]

/-- `encoderOutput` is exactly "pull until end-of-sequence". -/
theorem encoderOutput_pull (s : EncoderState) :
    encoderOutput s =
      (match s.pull with
       | (none, _) => []
       | (some b, s') => b :: encoderOutput s') := by
  cases s with
  | start data => rw [encoderOutput]; simp [EncoderState.pull]
  | done => simp [encoderOutput_done, EncoderState.pull]
  | block b =>
    obtain ⟨d, z, r⟩ := b
    cases d with
    | cons f d => rw [encoderOutput]; simp [EncoderState.pull]
    | nil =>
      cases z with
      | true => rw [encoderOutput]; simp [EncoderState.pull]
      | false =>
        cases r with
        | nil => rw [encoderOutput]; simp [EncoderState.pull, encoderOutput_done]
        | cons x r => rw [encoderOutput]; simp [EncoderState.pull]

/-- `Encoder::new(data)` followed by pulling every byte. -/
def encode (data : List Nat) : List Nat :=
  encoderOutput (.start data)

/-! ### Facts about `split_first_block` -/

theorem split_first_block_data_length_le (buf : List Nat) :
    (split_first_block buf).data.length ≤ 254 := by
  unfold split_first_block
  cases h : (buf.take 254).findIdx? (fun b => b == 0) with
  | none => simp
  | some idx =>
    obtain ⟨hlt, -, -⟩ := List.findIdx?_eq_some_iff_getElem.mp h
    rw [List.length_take] at hlt
    simp only [List.length_take]
    omega

theorem split_first_block_data_ne_zero (buf : List Nat) :
    ∀ b ∈ (split_first_block buf).data, b ≠ 0 := by
  unfold split_first_block
  cases h : (buf.take 254).findIdx? (fun b => b == 0) with
  | none =>
    intro b hb
    have hb' : b ∈ buf.take 254 := by
      refine List.mem_of_mem_take (n := min buf.length 254) ?_
      rw [List.take_take]
      have e : min (min buf.length 254) 254 = min buf.length 254 := by omega
      rw [e]
      simpa using hb
    have := List.findIdx?_eq_none_iff.mp h b hb'
    simpa using this
  | some idx =>
    obtain ⟨hlt, -, hbefore⟩ := List.findIdx?_eq_some_iff_getElem.mp h
    intro b hb
    obtain ⟨j, hj, rfl⟩ := List.getElem_of_mem hb
    rw [List.length_take] at hj hlt
    have hj' : j < idx := by omega
    have hjb : j < buf.length := by omega
    have e1 : (buf.take idx)[j] = buf[j] := by
      simp [List.getElem_take]
    have hj254 : j < (buf.take 254).length := by
      rw [List.length_take]
      omega
    have e2 : (buf.take 254)[j] = buf[j] := by
      simp [List.getElem_take]
    have := hbefore j hj'
    rw [e2] at this
    rw [e1]
    simpa using this

theorem split_first_block_spec (buf : List Nat) :
    ((split_first_block buf).zero = true →
        (split_first_block buf).data ++ 0 :: (split_first_block buf).rest = buf ∧
          (split_first_block buf).data.length ≤ 253) ∧
      ((split_first_block buf).zero = false →
        (split_first_block buf).data ++ (split_first_block buf).rest = buf ∧
          ((split_first_block buf).data.length = 254 ∨ (split_first_block buf).rest = [])) := by
  unfold split_first_block
  cases hf : (buf.take 254).findIdx? (fun b => b == 0) with
  | some idx =>
    dsimp only
    refine ⟨fun _ => ?_, fun hc => by simp at hc⟩
    obtain ⟨hlt, hp, -⟩ := List.findIdx?_eq_some_iff_getElem.mp hf
    rw [List.length_take] at hlt
    have hbuf : idx < buf.length := by omega
    have hidx : idx < 254 := by omega
    have hval : buf[idx] = 0 := by
      have e : (buf.take 254)[idx] = buf[idx] := by simp [List.getElem_take]
      rw [e] at hp
      simpa using hp
    constructor
    · have hd : buf.drop idx = buf[idx] :: buf.drop (idx + 1) :=
        List.drop_eq_getElem_cons hbuf
      rw [hval] at hd
      calc buf.take idx ++ 0 :: buf.drop (idx + 1)
          = buf.take idx ++ buf.drop idx := by rw [hd]
        _ = buf := List.take_append_drop idx buf
    · simp only [List.length_take]
      omega
  | none =>
    dsimp only
    refine ⟨fun hc => by simp at hc, fun _ => ?_⟩
    refine ⟨List.take_append_drop _ buf, ?_⟩
    simp only [List.length_take, List.length_drop]
    by_cases hle : buf.length ≤ 254
    · right
      simp
      omega
    · left
      omega

theorem split_first_block_zero_true (buf : List Nat) (h : (split_first_block buf).zero = true) :
    (split_first_block buf).data ++ 0 :: (split_first_block buf).rest = buf ∧
      (split_first_block buf).data.length ≤ 253 :=
  (split_first_block_spec buf).1 h

theorem split_first_block_zero_false (buf : List Nat) (h : (split_first_block buf).zero = false) :
    (split_first_block buf).data ++ (split_first_block buf).rest = buf ∧
      ((split_first_block buf).data.length = 254 ∨ (split_first_block buf).rest = []) :=
  (split_first_block_spec buf).2 h

/-- If a block ended with an elided zero, its code byte is at most 254;
equivalently, a block of 254 data bytes (code byte `0xFF`) has `zero = false`. -/
theorem split_first_block_zero_of_length_254 (buf : List Nat)
    (h : (split_first_block buf).data.length = 254) : (split_first_block buf).zero = false := by
  cases hz : (split_first_block buf).zero with
  | false => rfl
  | true =>
    have := (split_first_block_zero_true buf hz).2
    omega

/-! ### Unfolding lemmas for the encoder output -/

theorem encoderOutput_block_cons (f : Nat) (d : List Nat) (z : Bool) (r : List Nat) :
    encoderOutput (.block ⟨f :: d, z, r⟩) = f :: encoderOutput (.block ⟨d, z, r⟩) := by
  rw [encoderOutput]

/-- The data bytes of the current block are emitted verbatim. -/
theorem encoderOutput_block_data (d : List Nat) (z : Bool) (r : List Nat) :
    encoderOutput (.block ⟨d, z, r⟩) = d ++ encoderOutput (.block ⟨[], z, r⟩) := by
  induction d with
  | nil => simp
  | cons f d ih => rw [encoderOutput_block_cons, ih]; rfl

theorem encoderOutput_terminal :
    encoderOutput (.block ⟨[], false, []⟩) = [0] := by
  rw [encoderOutput]

/-- At a block boundary that is not the end of the input, the encoder emits
the next block's code byte, then its data bytes, and continues from the next
boundary. -/
theorem encoderOutput_step (z : Bool) (r : List Nat) (h : z = true ∨ r ≠ []) :
    encoderOutput (.block ⟨[], z, r⟩) =
      ((split_first_block r).data.length + 1) % 256 ::
        ((split_first_block r).data ++
          encoderOutput (.block ⟨[], (split_first_block r).zero, (split_first_block r).rest⟩)) := by
  have key : encoderOutput (.block ⟨[], z, r⟩) =
      ((split_first_block r).data.length + 1) % 256 ::
        encoderOutput (.block (split_first_block r)) := by
    cases z with
    | true => rw [encoderOutput]
    | false =>
      cases r with
      | nil => exact absurd rfl (h.resolve_left (by simp))
      | cons x r => rw [encoderOutput]
  rw [key, encoderOutput_block_data]

/-- `encode` emits the first block's code byte and data, then continues from
the first block boundary. -/
theorem encode_eq (p : List Nat) :
    encode p =
      ((split_first_block p).data.length + 1) % 256 ::
        ((split_first_block p).data ++
          encoderOutput (.block ⟨[], (split_first_block p).zero, (split_first_block p).rest⟩)) := by
  unfold encode
  rw [encoderOutput]
  rw [encoderOutput_block_data]

/-! ## Decoder (`cobs/decode.rs`) -/

/-- `DecodeError` from `decode.rs`. -/
inductive DecodeError where
  | emptyFrame
  | invalidFrame
  | bufferTooSmall
deriving DecidableEq, Repr

/-- `FeedResult` from `decode.rs`. -/
inductive FeedResult where
  | empty
  | dataStart
  | dataComplete
  | data (b : Nat)
  | error (e : DecodeError)
deriving DecidableEq, Repr

/-- `DecoderState` from `decode.rs`. -/
inductive DecoderState where
  | idle
  | block (i : Nat)
  | partialBlock (i : Nat)
deriving DecidableEq, Repr

/-- `DecoderState::feed`: the pure transition function of the decoder state
machine.  The source mutates `self` and returns a `FeedResult`; here the pair
of result and successor state is returned.  The match arms are in source
order (`0x00` = 0, `0xFF` = 255, `0xFE` = 254). -/
def DecoderState.feed (s : DecoderState) (byte : Nat) : FeedResult × DecoderState :=
  match s, byte with
  | .idle, 0 => (.empty, .idle)
  | .idle, 255 => (.dataStart, .partialBlock 254)
  | .idle, n => (.dataStart, .block (n - 1))
  | .block 0, 0 => (.dataComplete, .idle)
  | .block 0, 255 => (.data 0, .partialBlock 254)
  | .block 0, n => (.data 0, .block (n - 1))
  | .block _, 0 => (.error .invalidFrame, .idle)
  | .block i, n => (.data n, .block (i - 1))
  | .partialBlock 0, 0 => (.dataComplete, .idle)
  | .partialBlock 0, 255 => (.empty, .partialBlock 254)
  | .partialBlock 0, n => (.empty, .block (n - 1))
  | .partialBlock _, 0 => (.error .invalidFrame, .idle)
  | .partialBlock i, n => (.data n, .partialBlock (i - 1))

/-- `Decoder` from `decode.rs`: a destination buffer of capacity `cap`
(`buf.len()` in the source), the initialized prefix `out` (the first `pos`
bytes of the buffer, exactly what `Decoder::data()` exposes), and the state
machine state. -/
structure Decoder where
  cap : Nat
  out : List Nat
  state : DecoderState
deriving DecidableEq, Repr

/-- `Decoder::new_init` / `new_uninit` with a buffer of length `cap`. -/
def Decoder.new (cap : Nat) : Decoder :=
  { cap := cap, out := [], state := .idle }

/-- `Decoder::feed`: step the state machine, then perform the buffer-side
effect dictated by the `FeedResult`. -/
def Decoder.feed (d : Decoder) (byte : Nat) : Except DecodeError (Option Nat) × Decoder :=
  match d.state.feed byte with
  | (.empty, s') => (.ok (some 0), { d with state := s' })
  | (.dataStart, s') => (.ok none, { d with state := s', out := [] })
  | (.dataComplete, s') => (.ok (some d.out.length), { d with state := s' })
  | (.data b, s') =>
    if d.out.length < d.cap then
      (.ok none, { d with state := s', out := d.out ++ [b] })
    else
      (.error .bufferTooSmall, { d with state := s' })
  | (.error e, s') => (.error e, { d with state := s' })

/-- Feed a whole byte sequence, collecting each call's result. -/
def Decoder.feedAll (d : Decoder) (bytes : List Nat) :
    List (Except DecodeError (Option Nat)) × Decoder :=
  match bytes with
  | [] => ([], d)
  | b :: rest =>
    ((d.feed b).1 :: ((d.feed b).2.feedAll rest).1, ((d.feed b).2.feedAll rest).2)

/-! ### Step lemmas for `DecoderState.feed` -/

theorem feed_idle_zero : DecoderState.feed .idle 0 = (.empty, .idle) := rfl

theorem feed_idle_255 : DecoderState.feed .idle 255 = (.dataStart, .partialBlock 254) := rfl

theorem feed_idle_code (n : Nat) (h0 : n ≠ 0) (h255 : n ≠ 255) :
    DecoderState.feed .idle n = (.dataStart, .block (n - 1)) := by
  unfold DecoderState.feed
  split <;> simp_all

theorem feed_block_zero_term : DecoderState.feed (.block 0) 0 = (.dataComplete, .idle) := rfl

theorem feed_block_zero_255 :
    DecoderState.feed (.block 0) 255 = (.data 0, .partialBlock 254) := rfl

theorem feed_block_zero_code (n : Nat) (h0 : n ≠ 0) (h255 : n ≠ 255) :
    DecoderState.feed (.block 0) n = (.data 0, .block (n - 1)) := by
  unfold DecoderState.feed
  split <;> simp_all

theorem feed_block_succ_zero (i : Nat) :
    DecoderState.feed (.block (i + 1)) 0 = (.error .invalidFrame, .idle) := by
  unfold DecoderState.feed
  split <;> simp_all

theorem feed_block_succ (i n : Nat) (hn : n ≠ 0) :
    DecoderState.feed (.block (i + 1)) n = (.data n, .block i) := by
  unfold DecoderState.feed
  split <;> simp_all
  omega

theorem feed_pblock_zero_term :
    DecoderState.feed (.partialBlock 0) 0 = (.dataComplete, .idle) := rfl

theorem feed_pblock_zero_255 :
    DecoderState.feed (.partialBlock 0) 255 = (.empty, .partialBlock 254) := rfl

theorem feed_pblock_zero_code (n : Nat) (h0 : n ≠ 0) (h255 : n ≠ 255) :
    DecoderState.feed (.partialBlock 0) n = (.empty, .block (n - 1)) := by
  unfold DecoderState.feed
  split <;> simp_all

theorem feed_pblock_succ_zero (i : Nat) :
    DecoderState.feed (.partialBlock (i + 1)) 0 = (.error .invalidFrame, .idle) := by
  unfold DecoderState.feed
  split <;> simp_all

theorem feed_pblock_succ (i n : Nat) (hn : n ≠ 0) :
    DecoderState.feed (.partialBlock (i + 1)) n = (.data n, .partialBlock i) := by
  unfold DecoderState.feed
  split <;> simp_all
  omega

/-! ### Evaluation lemmas for `Decoder.feed` and `Decoder.feedAll` -/

theorem Decoder.feed_of_empty (d : Decoder) (b : Nat) (s' : DecoderState)
    (h : d.state.feed b = (.empty, s')) :
    d.feed b = (.ok (some 0), { d with state := s' }) := by
  unfold Decoder.feed
  rw [h]

theorem Decoder.feed_of_dataStart (d : Decoder) (b : Nat) (s' : DecoderState)
    (h : d.state.feed b = (.dataStart, s')) :
    d.feed b = (.ok none, { d with state := s', out := [] }) := by
  unfold Decoder.feed
  rw [h]

theorem Decoder.feed_of_dataComplete (d : Decoder) (b : Nat) (s' : DecoderState)
    (h : d.state.feed b = (.dataComplete, s')) :
    d.feed b = (.ok (some d.out.length), { d with state := s' }) := by
  unfold Decoder.feed
  rw [h]

theorem Decoder.feed_of_data (d : Decoder) (b v : Nat) (s' : DecoderState)
    (h : d.state.feed b = (.data v, s')) (hlt : d.out.length < d.cap) :
    d.feed b = (.ok none, { d with state := s', out := d.out ++ [v] }) := by
  unfold Decoder.feed
  rw [h]
  simp [hlt]

theorem Decoder.feed_of_error (d : Decoder) (b : Nat) (e : DecodeError) (s' : DecoderState)
    (h : d.state.feed b = (.error e, s')) :
    d.feed b = (.error e, { d with state := s' }) := by
  unfold Decoder.feed
  rw [h]

theorem Decoder.feedAll_nil (d : Decoder) : d.feedAll [] = ([], d) := rfl

theorem Decoder.feedAll_cons (d : Decoder) (b : Nat) (rest : List Nat) :
    d.feedAll (b :: rest) =
      ((d.feed b).1 :: ((d.feed b).2.feedAll rest).1, ((d.feed b).2.feedAll rest).2) := by
  rfl

theorem Decoder.feedAll_append (d : Decoder) (xs ys : List Nat) :
    d.feedAll (xs ++ ys) =
      ((d.feedAll xs).1 ++ ((d.feedAll xs).2.feedAll ys).1, ((d.feedAll xs).2.feedAll ys).2) := by
  induction xs generalizing d with
  | nil => simp [Decoder.feedAll_nil]
  | cons x xs ih =>
    rw [List.cons_append, Decoder.feedAll_cons, Decoder.feedAll_cons, ih]
    simp

/-- A decoder state mid-run: `partialBlock i` when the current block's code
byte was `0xFF`, `block i` otherwise. -/
def mkRun (pb : Bool) (i : Nat) : DecoderState :=
  if pb then .partialBlock i else .block i

theorem feed_mkRun_succ (pb : Bool) (i n : Nat) (hn : n ≠ 0) :
    DecoderState.feed (mkRun pb (i + 1)) n = (.data n, mkRun pb i) := by
  cases pb with
  | true => simpa [mkRun] using feed_pblock_succ i n hn
  | false => simpa [mkRun] using feed_block_succ i n hn

theorem getLast?_append_right {α : Type} (l l' : List α) (h : l' ≠ []) :
    (l ++ l').getLast? = l'.getLast? := by
  simp [List.getLast?_append]
  cases l' with
  | nil => simp at h
  | cons x xs =>
    cases h2 : (x :: xs).getLast? with
    | none => simp [List.getLast?] at h2
    | some v => simp

theorem getLast?_cons_append_right {α : Type} (a : α) (l l' : List α) (h : l' ≠ []) :
    (a :: (l ++ l')).getLast? = l'.getLast? := by
  have : a :: (l ++ l') = (a :: l) ++ l' := by simp
  rw [this, getLast?_append_right _ _ h]

theorem ne_nil_of_getLast?_eq_some {α : Type} (l : List α) (v : α)
    (h : l.getLast? = some v) : l ≠ [] := by
  intro hc
  rw [hc] at h
  simp at h

/-- The original input is recovered from a block split: the data bytes, the
elided zero (when `zero = true`), then the remaining input. -/
theorem split_reconstruct (r : List Nat) :
    (split_first_block r).data ++
      (if (split_first_block r).zero = true then 0 :: (split_first_block r).rest
       else (split_first_block r).rest) = r := by
  cases hz : (split_first_block r).zero with
  | true => simpa using (split_first_block_zero_true r hz).1
  | false => simpa using (split_first_block_zero_false r hz).1

theorem split_length_decomp (r : List Nat) :
    (split_first_block r).data.length +
        (if (split_first_block r).zero = true then 1 else 0) +
      (split_first_block r).rest.length = r.length := by
  have h := congrArg List.length (split_reconstruct r)
  cases hz : (split_first_block r).zero <;> rw [hz] at h <;> simp at h <;> simp [hz] <;> omega

/-- Feeding the data bytes of a block: each byte is appended to the output
and the run counter goes down to 0. -/
theorem feedAll_run (data : List Nat) : ∀ (pb : Bool) (cap : Nat) (out : List Nat),
    (∀ b ∈ data, b ≠ 0) → out.length + data.length ≤ cap →
    Decoder.feedAll ⟨cap, out, mkRun pb data.length⟩ data =
      (List.replicate data.length (.ok none), ⟨cap, out ++ data, mkRun pb 0⟩) := by
  induction data with
  | nil => intro pb cap out _ _; simp [Decoder.feedAll_nil]
  | cons f d ih =>
    intro pb cap out hnz hcap
    have hf : f ≠ 0 := hnz f (by simp)
    have hstep : DecoderState.feed (mkRun pb (d.length + 1)) f = (.data f, mkRun pb d.length) :=
      feed_mkRun_succ pb d.length f hf
    rw [Decoder.feedAll_cons]
    rw [Decoder.feed_of_data ⟨cap, out, mkRun pb (f :: d).length⟩ f f (mkRun pb d.length)
      (by simpa using hstep) (by simp at hcap ⊢; omega)]
    have ih' := ih pb cap (out ++ [f]) (fun b hb => hnz b (by simp [hb]))
      (by simp at hcap ⊢; omega)
    simp only [ih']
    simp [List.replicate_succ]

/-- Feeding the terminating `0x00` at a block boundary completes the frame:
the decoder reports the decoded length and returns to `Idle`. -/
theorem feedAll_boundary_terminal (pb : Bool) (out : List Nat) (cap : Nat) :
    Decoder.feedAll ⟨cap, out, mkRun pb 0⟩ [0] =
      ([.ok (some out.length)], ⟨cap, out, .idle⟩) := by
  have hfeed : DecoderState.feed (mkRun pb 0) 0 = (.dataComplete, .idle) := by
    cases pb <;> simp [mkRun, feed_block_zero_term, feed_pblock_zero_term]
  have hwrap := Decoder.feed_of_dataComplete ⟨cap, out, mkRun pb 0⟩ 0 .idle hfeed
  rw [Decoder.feedAll_cons, hwrap]
  simp [Decoder.feedAll_nil]

/-- Main round-trip invariant: from a block boundary (`block 0` or
`partialBlock 0`), feeding the remaining encoder output appends the remaining
payload (the elided zero when `zero = true`, then `rest`) to the output and
completes the frame, reporting the final decoded length. -/
theorem feedAll_boundary (n : Nat) : ∀ (rest : List Nat) (z pb : Bool) (out : List Nat)
    (cap : Nat),
    2 * rest.length + (if z then 1 else 0) ≤ n →
    (z = true → pb = false) →
    (pb = true → z = false) →
    (pb = false → z = false → rest = []) →
    out.length + (if z then 1 else 0) + rest.length ≤ cap →
    (Decoder.feedAll ⟨cap, out, mkRun pb 0⟩ (encoderOutput (.block ⟨[], z, rest⟩))).2 =
        ⟨cap, out ++ (if z then 0 :: rest else rest), .idle⟩ ∧
      (Decoder.feedAll ⟨cap, out, mkRun pb 0⟩ (encoderOutput (.block ⟨[], z, rest⟩))).1.getLast? =
        some (.ok (some (out.length + (if z then 1 else 0) + rest.length))) := by
  induction n with
  | zero =>
    intro rest z pb out cap hm hz1 hz2 hz3 hcap
    have hz : z = false := by cases z <;> simp at hm ⊢
    have hr : rest = [] := by
      have : rest.length = 0 := by omega
      exact List.length_eq_zero.mp this
    subst hz hr
    rw [encoderOutput_terminal, feedAll_boundary_terminal]
    simp
  | succ n ih =>
    intro rest z pb out cap hm hz1 hz2 hz3 hcap
    by_cases hterm : z = false ∧ rest = []
    · obtain ⟨hz, hr⟩ := hterm
      subst hz hr
      rw [encoderOutput_terminal, feedAll_boundary_terminal]
      simp
    · -- non-terminal boundary: a code byte, then block data, then recurse
      have hne : z = true ∨ rest ≠ [] := by
        cases z with
        | true => exact Or.inl rfl
        | false => exact Or.inr fun hc => hterm ⟨rfl, hc⟩
      have hrec := split_reconstruct rest
      have hlen := split_length_decomp rest
      have hdlen := split_first_block_data_length_le rest
      have hdnz := split_first_block_data_ne_zero rest
      have hstep := encoderOutput_step z rest hne
      have hz253 : (split_first_block rest).zero = true →
          (split_first_block rest).data.length ≤ 253 :=
        fun h => (split_first_block_zero_true rest h).2
      have hz254 : (split_first_block rest).data.length = 254 →
          (split_first_block rest).zero = false :=
        split_first_block_zero_of_length_254 rest
      have hzf : (split_first_block rest).zero = false →
          ((split_first_block rest).data.length = 254 ∨ (split_first_block rest).rest = []) :=
        fun h => (split_first_block_zero_false rest h).2
      have hsplitnil : split_first_block [] = ⟨[], false, []⟩ := rfl
      rcases hsp : split_first_block rest with ⟨bd, bz, br⟩
      rw [hsp] at hrec hlen hdlen hdnz hstep hz253 hz254 hzf
      simp only at hrec hlen hdlen hdnz hstep hz253 hz254 hzf
      have hmod : (bd.length + 1) % 256 = bd.length + 1 := Nat.mod_eq_of_lt (by omega)
      rw [hmod] at hstep
      -- the kind of the next boundary
      set pb' : Bool := decide (bd.length = 254) with hpb'
      have hz1' : bz = true → pb' = false := by
        intro h
        have := hz253 h
        simp [hpb']
        omega
      have hz2' : pb' = true → bz = false := by
        intro h
        exact hz254 (by simpa [hpb'] using h)
      have hz3' : pb' = false → bz = false → br = [] := by
        intro h1 h2
        rcases hzf h2 with h | h
        · simp [hpb'] at h1
          omega
        · exact h
      -- the measure decreases
      have hm2 : 2 * rest.length ≤ n + 1 := by
        cases z <;> simp at hm <;> omega
      have hm' : 2 * br.length + (if bz then 1 else 0) ≤ n := by
        rcases List.eq_nil_or_concat rest with hr | -
        · subst hr
          rw [hsplitnil] at hsp
          simp at hsp
          obtain ⟨-, hbz, hbr⟩ := hsp
          subst hbz hbr
          simp
        · cases hbz' : bz with
          | true =>
            rw [hbz'] at hlen
            simp at hlen
            simp
            omega
          | false =>
            rcases hzf hbz' with h | h
            · rw [hbz'] at hlen
              simp at hlen
              simp
              omega
            · rw [h]
              simp [hbz']
      -- feed the code byte, the data bytes, then recurse
      rw [hstep]
      cases pb with
      | false =>
        have hz : z = true := by
          cases z with
          | true => rfl
          | false => exact absurd (hz3 rfl rfl) (hterm ⟨rfl, ·⟩)
        subst hz
        have hcap0 : out.length + 1 + rest.length ≤ cap := by simpa using hcap
        have hbd : bd.length ≤ rest.length := by
          cases hbz' : bz <;> rw [hbz'] at hlen <;> simp at hlen <;> omega
        have hcfeed : DecoderState.feed (mkRun false 0) (bd.length + 1) =
            (.data 0, mkRun pb' bd.length) := by
          by_cases h254 : bd.length = 254
          · rw [h254]
            simpa [mkRun, hpb', h254] using feed_block_zero_255
          · have hf := feed_block_zero_code (bd.length + 1) (by omega) (by omega)
            simpa [mkRun, hpb', h254] using hf
        have hwrap := Decoder.feed_of_data ⟨cap, out, mkRun false 0⟩ (bd.length + 1) 0
          (mkRun pb' bd.length) hcfeed (by simp; omega)
        have hrun := feedAll_run bd pb' cap (out ++ [0]) hdnz (by simp; omega)
        have hmain : Decoder.feedAll ⟨cap, out, mkRun false 0⟩
            ((bd.length + 1) :: (bd ++ encoderOutput (.block ⟨[], bz, br⟩))) =
            (.ok none :: (List.replicate bd.length (.ok none) ++
                (Decoder.feedAll ⟨cap, (out ++ [0]) ++ bd, mkRun pb' 0⟩
                  (encoderOutput (.block ⟨[], bz, br⟩))).1),
              (Decoder.feedAll ⟨cap, (out ++ [0]) ++ bd, mkRun pb' 0⟩
                (encoderOutput (.block ⟨[], bz, br⟩))).2) := by
          rw [Decoder.feedAll_cons, hwrap]
          dsimp only
          rw [Decoder.feedAll_append, hrun]
        obtain ⟨ih2, ih1⟩ := ih br bz pb' ((out ++ [0]) ++ bd) cap hm' hz1' hz2' hz3'
          (by
            cases hbz' : bz <;> rw [hbz'] at hlen <;> simp at hlen ⊢ <;> omega)
        rw [hmain]
        constructor
        · dsimp only
          rw [ih2]
          have hout : ((out ++ [0]) ++ bd) ++ (if bz = true then 0 :: br else br) =
              out ++ 0 :: rest := by
            rw [← hrec]
            cases bz <;> simp
          rw [hout]
          simp
        · dsimp only
          rw [getLast?_cons_append_right _ _ _ (ne_nil_of_getLast?_eq_some _ _ ih1), ih1]
          have hval : ((out ++ [0]) ++ bd).length + (if bz = true then 1 else 0) + br.length =
              out.length + 1 + rest.length := by
            cases hbz' : bz <;> rw [hbz'] at hlen <;> simp at hlen ⊢ <;> omega
          rw [hval]
          simp
      | true =>
        have hz : z = false := hz2 rfl
        subst hz
        have hcap0 : out.length + rest.length ≤ cap := by simpa using hcap
        have hbd : bd.length ≤ rest.length := by
          cases hbz' : bz <;> rw [hbz'] at hlen <;> simp at hlen <;> omega
        have hcfeed : DecoderState.feed (mkRun true 0) (bd.length + 1) =
            (.empty, mkRun pb' bd.length) := by
          by_cases h254 : bd.length = 254
          · rw [h254]
            simpa [mkRun, hpb', h254] using feed_pblock_zero_255
          · have hf := feed_pblock_zero_code (bd.length + 1) (by omega) (by omega)
            simpa [mkRun, hpb', h254] using hf
        have hwrap := Decoder.feed_of_empty ⟨cap, out, mkRun true 0⟩ (bd.length + 1)
          (mkRun pb' bd.length) hcfeed
        have hrun := feedAll_run bd pb' cap out hdnz (by
          cases hbz' : bz <;> rw [hbz'] at hlen <;> simp at hlen ⊢ <;> omega)
        have hmain : Decoder.feedAll ⟨cap, out, mkRun true 0⟩
            ((bd.length + 1) :: (bd ++ encoderOutput (.block ⟨[], bz, br⟩))) =
            (.ok (some 0) :: (List.replicate bd.length (.ok none) ++
                (Decoder.feedAll ⟨cap, out ++ bd, mkRun pb' 0⟩
                  (encoderOutput (.block ⟨[], bz, br⟩))).1),
              (Decoder.feedAll ⟨cap, out ++ bd, mkRun pb' 0⟩
                (encoderOutput (.block ⟨[], bz, br⟩))).2) := by
          rw [Decoder.feedAll_cons, hwrap]
          dsimp only
          rw [Decoder.feedAll_append, hrun]
        obtain ⟨ih2, ih1⟩ := ih br bz pb' (out ++ bd) cap hm' hz1' hz2' hz3'
          (by
            cases hbz' : bz <;> rw [hbz'] at hlen <;> simp at hlen ⊢ <;> omega)
        rw [hmain]
        constructor
        · dsimp only
          rw [ih2]
          have hout : (out ++ bd) ++ (if bz = true then 0 :: br else br) = out ++ rest := by
            rw [← hrec]
            cases bz <;> simp
          rw [hout]
          simp
        · dsimp only
          rw [getLast?_cons_append_right _ _ _ (ne_nil_of_getLast?_eq_some _ _ ih1), ih1]
          have hval : (out ++ bd).length + (if bz = true then 1 else 0) + br.length =
              out.length + rest.length := by
            cases hbz' : bz <;> rw [hbz'] at hlen <;> simp at hlen ⊢ <;> omega
          rw [hval]
          simp

/-- C1: COBS round-trip.  For every payload `P` of length 0..255 over bytes,
feeding every byte of the encoder's output for `P` (pulled until
end-of-sequence) into a fresh decoder whose destination buffer has capacity
at least `|P|`: the final fed byte (the 0x00 terminator) reports a completed
frame whose reported length equals `|P|`, and the decoded buffer contents
equal `P`. -/
theorem cobs_encode_decode_round_trip (P : List Nat) (hbytes : ∀ b ∈ P, b < 256)
    (hlen : P.length ≤ 255) (cap : Nat) (hcap : P.length ≤ cap) :
    ((Decoder.new cap).feedAll (encode P)).1.getLast? = some (.ok (some P.length)) ∧
      ((Decoder.new cap).feedAll (encode P)).2.out = P := by
  have hrec := split_reconstruct P
  have hlen' := split_length_decomp P
  have hdlen := split_first_block_data_length_le P
  have hdnz := split_first_block_data_ne_zero P
  have henc := encode_eq P
  have hz253 : (split_first_block P).zero = true → (split_first_block P).data.length ≤ 253 :=
    fun h => (split_first_block_zero_true P h).2
  have hz254 : (split_first_block P).data.length = 254 → (split_first_block P).zero = false :=
    split_first_block_zero_of_length_254 P
  have hzf : (split_first_block P).zero = false →
      ((split_first_block P).data.length = 254 ∨ (split_first_block P).rest = []) :=
    fun h => (split_first_block_zero_false P h).2
  rcases hsp : split_first_block P with ⟨bd, bz, br⟩
  rw [hsp] at hrec hlen' hdlen hdnz henc hz253 hz254 hzf
  simp only at hrec hlen' hdlen hdnz henc hz253 hz254 hzf
  have hmod : (bd.length + 1) % 256 = bd.length + 1 := Nat.mod_eq_of_lt (by omega)
  rw [hmod] at henc
  set pb' : Bool := decide (bd.length = 254) with hpb'
  have hz1' : bz = true → pb' = false := by
    intro h
    have := hz253 h
    simp [hpb']
    omega
  have hz2' : pb' = true → bz = false := by
    intro h
    exact hz254 (by simpa [hpb'] using h)
  have hz3' : pb' = false → bz = false → br = [] := by
    intro h1 h2
    rcases hzf h2 with h | h
    · simp [hpb'] at h1
      omega
    · exact h
  have hbd : bd.length + (if bz = true then 1 else 0) + br.length = P.length := hlen'
  -- feed the first code byte from Idle
  have hcfeed : DecoderState.feed .idle (bd.length + 1) =
      (.dataStart, mkRun pb' bd.length) := by
    by_cases h254 : bd.length = 254
    · rw [h254]
      simpa [mkRun, hpb', h254] using feed_idle_255
    · have hf := feed_idle_code (bd.length + 1) (by omega) (by omega)
      simpa [mkRun, hpb', h254] using hf
  have hwrap := Decoder.feed_of_dataStart (Decoder.new cap) (bd.length + 1)
    (mkRun pb' bd.length) hcfeed
  have hrun := feedAll_run bd pb' cap [] hdnz (by
    simp
    cases hbz' : bz <;> rw [hbz'] at hbd <;> simp at hbd <;> omega)
  have hmain : Decoder.feedAll (Decoder.new cap)
      ((bd.length + 1) :: (bd ++ encoderOutput (.block ⟨[], bz, br⟩))) =
      (.ok none :: (List.replicate bd.length (.ok none) ++
          (Decoder.feedAll ⟨cap, bd, mkRun pb' 0⟩
            (encoderOutput (.block ⟨[], bz, br⟩))).1),
        (Decoder.feedAll ⟨cap, bd, mkRun pb' 0⟩
          (encoderOutput (.block ⟨[], bz, br⟩))).2) := by
    rw [Decoder.feedAll_cons, hwrap]
    dsimp only [Decoder.new]
    rw [Decoder.feedAll_append]
    have : Decoder.feedAll ⟨cap, [], mkRun pb' bd.length⟩ bd =
        (List.replicate bd.length (.ok none), ⟨cap, [] ++ bd, mkRun pb' 0⟩) := hrun
    rw [this]
    simp
  obtain ⟨ihA, ihB⟩ := feedAll_boundary (2 * br.length + 1) br bz pb' bd cap
    (by cases bz <;> simp) hz1' hz2' hz3'
    (by cases hbz' : bz <;> rw [hbz'] at hbd <;> simp at hbd ⊢ <;> omega)
  rw [encode] at henc ⊢
  rw [henc, hmain]
  constructor
  · dsimp only
    rw [getLast?_cons_append_right _ _ _ (ne_nil_of_getLast?_eq_some _ _ ihB), ihB]
    have : bd.length + (if bz = true then 1 else 0) + br.length = P.length := hbd
    rw [this]
  · dsimp only
    rw [ihA]
    simp only
    rw [← hrec]

/-! ### Delimiter safety of the encoder -/

theorem encoderOutput_boundary_safety (n : Nat) : ∀ (rest : List Nat) (z : Bool),
    2 * rest.length + (if z then 1 else 0) ≤ n →
    encoderOutput (.block ⟨[], z, rest⟩) ≠ [] ∧
      (encoderOutput (.block ⟨[], z, rest⟩)).getLast? = some 0 ∧
      ∀ b ∈ (encoderOutput (.block ⟨[], z, rest⟩)).dropLast, b ≠ 0 := by
  induction n with
  | zero =>
    intro rest z hm
    have hz : z = false := by cases z <;> simp at hm ⊢
    have hr : rest = [] := by
      have : rest.length = 0 := by omega
      exact List.length_eq_zero.mp this
    subst hz hr
    rw [encoderOutput_terminal]
    simp
  | succ n ih =>
    intro rest z hm
    by_cases hterm : z = false ∧ rest = []
    · obtain ⟨hz, hr⟩ := hterm
      subst hz hr
      rw [encoderOutput_terminal]
      simp
    · have hne : z = true ∨ rest ≠ [] := by
        cases z with
        | true => exact Or.inl rfl
        | false => exact Or.inr fun hc => hterm ⟨rfl, hc⟩
      have hlen := split_length_decomp rest
      have hdlen := split_first_block_data_length_le rest
      have hdnz := split_first_block_data_ne_zero rest
      have hstep := encoderOutput_step z rest hne
      have hz253 : (split_first_block rest).zero = true →
          (split_first_block rest).data.length ≤ 253 :=
        fun h => (split_first_block_zero_true rest h).2
      have hzf : (split_first_block rest).zero = false →
          ((split_first_block rest).data.length = 254 ∨ (split_first_block rest).rest = []) :=
        fun h => (split_first_block_zero_false rest h).2
      have hsplitnil : split_first_block [] = ⟨[], false, []⟩ := rfl
      rcases hsp : split_first_block rest with ⟨bd, bz, br⟩
      rw [hsp] at hlen hdlen hdnz hstep hz253 hzf
      simp only at hlen hdlen hdnz hstep hz253 hzf
      have hmod : (bd.length + 1) % 256 = bd.length + 1 := Nat.mod_eq_of_lt (by omega)
      rw [hmod] at hstep
      have hm2 : 2 * rest.length ≤ n + 1 := by
        cases z <;> simp at hm <;> omega
      have hm' : 2 * br.length + (if bz then 1 else 0) ≤ n := by
        rcases List.eq_nil_or_concat rest with hr | ⟨l, a, hr⟩
        · subst hr
          rw [hsplitnil] at hsp
          simp at hsp
          obtain ⟨-, hbz, hbr⟩ := hsp
          subst hbz hbr
          simp
        · cases hbz' : bz with
          | true =>
            rw [hbz'] at hlen
            simp at hlen
            simp
            omega
          | false =>
            rcases hzf hbz' with h | h
            · rw [hbz'] at hlen
              simp at hlen
              simp
              omega
            · rw [h]
              simp [hbz']
      obtain ⟨ih1, ih2, ih3⟩ := ih br bz hm'
      rw [hstep]
      refine ⟨by simp, ?_, ?_⟩
      · rw [getLast?_cons_append_right _ _ _ ih1, ih2]
      · have hsplit2 : (bd.length + 1) :: (bd ++ encoderOutput (.block ⟨[], bz, br⟩)) =
            ((bd.length + 1) :: bd) ++ encoderOutput (.block ⟨[], bz, br⟩) := by
          simp
        rw [hsplit2, List.dropLast_append_of_ne_nil _ ih1]
        intro b hb
        rcases List.mem_append.mp hb with hb | hb
        · rcases List.mem_cons.mp hb with hb | hb
          · omega
          · exact hdnz b hb
        · exact ih3 b hb

/-- C4: delimiter safety.  For every input payload `P`, the encoder's output
is nonempty, its final byte is the single 0x00 terminator, and every byte
before the terminator is non-zero. -/
theorem encode_delimiter_safe (P : List Nat) :
    encode P ≠ [] ∧ (encode P).getLast? = some 0 ∧
      ∀ b ∈ (encode P).dropLast, b ≠ 0 := by
  have hdlen := split_first_block_data_length_le P
  have hdnz := split_first_block_data_ne_zero P
  have henc := encode_eq P
  rcases hsp : split_first_block P with ⟨bd, bz, br⟩
  rw [hsp] at hdlen hdnz henc
  simp only at hdlen hdnz henc
  have hmod : (bd.length + 1) % 256 = bd.length + 1 := Nat.mod_eq_of_lt (by omega)
  rw [hmod] at henc
  obtain ⟨ih1, ih2, ih3⟩ :=
    encoderOutput_boundary_safety (2 * br.length + 1) br bz (by cases bz <;> simp)
  rw [henc]
  refine ⟨by simp, ?_, ?_⟩
  · rw [getLast?_cons_append_right _ _ _ ih1, ih2]
  · have hsplit2 : (bd.length + 1) :: (bd ++ encoderOutput (.block ⟨[], bz, br⟩)) =
        ((bd.length + 1) :: bd) ++ encoderOutput (.block ⟨[], bz, br⟩) := by
      simp
    rw [hsplit2, List.dropLast_append_of_ne_nil _ ih1]
    intro b hb
    rcases List.mem_append.mp hb with hb | hb
    · rcases List.mem_cons.mp hb with hb | hb
      · omega
      · exact hdnz b hb
    · exact ih3 b hb

/-! ### Claim theorems about the decoder's feed interface -/

/-- C2: evaluation of `Decoder::feed` at its failing inputs.  `Decoder::feed`
maps `FeedResult::Empty` to `Ok(Some(0))`, so a stray 0x00 fed in `Idle`
reports a completed frame of length 0 (though the state machine stays
`Idle`), and a length byte fed in `PartialBlock(0)` — strictly inside an
unterminated frame — also reports `Ok(Some(0))`.  Both contradict the claim
that `Ok(Some(n))` is returned exactly for a 0x00 terminator arriving in
`Block(0)`/`PartialBlock(0)`. -/
theorem decoder_feed_spurious_completion :
    ((Decoder.new 8).feed 0).1 = .ok (some 0) ∧
      ((Decoder.new 8).feed 0).2.state = .idle ∧
      ((Decoder.mk 8 [] (.partialBlock 0)).feed 2).1 = .ok (some 0) ∧
      ((Decoder.mk 8 [] (.partialBlock 0)).feed 2).2.state = .block 1 := by
  refine ⟨rfl, rfl, rfl, rfl⟩

/-- C3 counterexample: in state `Block(0)`, a non-zero byte does produce an
output byte (the re-inserted zero): the transition result is `Data(0)`, and a
decoder in that state appends `0x00` to its output, contradicting the
claim's "no output" for this step. -/
theorem decoder_block0_nonzero_emits_cex :
    DecoderState.feed (.block 0) 2 = (.data 0, .block 1) ∧
      DecoderState.feed (.block 0) 255 = (.data 0, .partialBlock 254) ∧
      ((Decoder.mk 4 [] (.block 0)).feed 2).2.out ≠ [] := by
  refine ⟨rfl, rfl, by decide⟩

/-- C3 (amended): when the decoder is in state `Block(0)` and receives a
non-zero byte, it outputs exactly one byte, the re-inserted zero `0x00`
(`Data(0)`): on 0xFF it transitions to `PartialBlock(254)`, and on any other
non-zero `n` to `Block(n − 1)`. -/
theorem decoder_block0_nonzero (d : Decoder) (n : Nat) (h0 : n ≠ 0)
    (hs : d.state = .block 0) (hcap : d.out.length < d.cap) :
    (d.feed n).1 = .ok none ∧ (d.feed n).2.out = d.out ++ [0] ∧
      (n = 255 → (d.feed n).2.state = .partialBlock 254) ∧
      (n ≠ 255 → (d.feed n).2.state = .block (n - 1)) := by
  by_cases h255 : n = 255
  · subst h255
    have hf : d.state.feed 255 = (.data 0, .partialBlock 254) := by
      rw [hs]
      exact feed_block_zero_255
    rw [Decoder.feed_of_data d 255 0 (.partialBlock 254) hf hcap]
    simp
  · have hf : d.state.feed n = (.data 0, .block (n - 1)) := by
      rw [hs]
      exact feed_block_zero_code n h0 h255
    rw [Decoder.feed_of_data d n 0 (.block (n - 1)) hf hcap]
    simp [h255]

theorem decoder_block0_nonzero_witness :
    (7 : Nat) ≠ 0 ∧
      (((Decoder.mk 4 [] (.block 0)).feed 7).1 = .ok none ∧
        ((Decoder.mk 4 [] (.block 0)).feed 7).2.out = [] ++ [0] ∧
        ((7 : Nat) = 255 → ((Decoder.mk 4 [] (.block 0)).feed 7).2.state = .partialBlock 254) ∧
        ((7 : Nat) ≠ 255 → ((Decoder.mk 4 [] (.block 0)).feed 7).2.state = .block (7 - 1))) :=
  ⟨by decide, decoder_block0_nonzero (Decoder.mk 4 [] (.block 0)) 7 (by decide) rfl (by decide)⟩

/-- C5: premature terminator.  A `0x00` fed while the decoder still expects
`i > 0` literal bytes (state `Block(i)` or `PartialBlock(i)`) yields the
`InvalidFrame` error, resets the state machine to `Idle` (ready for the next
frame), and leaves the already-decoded output untouched. -/
theorem decoder_premature_terminator (d : Decoder) (i : Nat) (hi : 0 < i)
    (hs : d.state = .block i ∨ d.state = .partialBlock i) :
    (d.feed 0).1 = .error .invalidFrame ∧ (d.feed 0).2.state = .idle ∧
      (d.feed 0).2.out = d.out := by
  obtain ⟨j, rfl⟩ : ∃ j, i = j + 1 := ⟨i - 1, by omega⟩
  have hf : d.state.feed 0 = (.error .invalidFrame, .idle) := by
    rcases hs with hs | hs <;> rw [hs]
    · exact feed_block_succ_zero j
    · exact feed_pblock_succ_zero j
  rw [Decoder.feed_of_error d 0 .invalidFrame .idle hf]
  simp

theorem decoder_premature_terminator_witness :
    0 < 2 ∧
      (((Decoder.mk 4 [9] (.block 2)).feed 0).1 = .error .invalidFrame ∧
        ((Decoder.mk 4 [9] (.block 2)).feed 0).2.state = .idle ∧
        ((Decoder.mk 4 [9] (.block 2)).feed 0).2.out = [9]) :=
  ⟨by decide, decoder_premature_terminator (Decoder.mk 4 [9] (.block 2)) 2 (by decide)
    (Or.inl rfl)⟩

/-- C1 witness: the round-trip theorem instantiated at the concrete payload
`[1, 0, 2]` with a buffer of capacity 3. -/
theorem cobs_encode_decode_round_trip_witness :
    (∀ b ∈ [1, 0, 2], b < 256) ∧ ([1, 0, 2] : List Nat).length ≤ 255 ∧
      ([1, 0, 2] : List Nat).length ≤ 3 ∧
      (((Decoder.new 3).feedAll (encode [1, 0, 2])).1.getLast? =
          some (.ok (some ([1, 0, 2] : List Nat).length)) ∧
        ((Decoder.new 3).feedAll (encode [1, 0, 2])).2.out = [1, 0, 2]) :=
  ⟨by decide, by decide, by decide,
    cobs_encode_decode_round_trip [1, 0, 2] (by decide) (by decide) 3 (by decide)⟩

end Cobs

namespace Ads131m08

/-! ## ADS131M08 driver (`libraries/ads131m08/src/lib.rs`, `command.rs`) -/

/-- `BYTES_PER_WORD` from `lib.rs` (24-bit words). -/
def BYTES_PER_WORD : Nat := 3

/-- `CHANNELS` from `lib.rs`. -/
def CHANNELS : Nat := 8

/-- `ENABLE_INPUT_CRC` from `lib.rs`. -/
def ENABLE_INPUT_CRC : Bool := true

/-! ### Command words (`command.rs`) -/

/-- No operation. -/
def NULL : Nat := 0b0000000000000000

/-- Reset the device. -/
def RESET : Nat := 0b0000000000010001

/-- Place the device into standby mode. -/
def STANDBY : Nat := 0b0000000000100010

/-- Wake the device from standby mode. -/
def WAKEUP : Nat := 0b0000000000110011

/-- Lock the interface. -/
def LOCK : Nat := 0b0000010101010101

/-- Unlock the interface. -/
def UNLOCK : Nat := 0b0000011001100110

/-- The RREG opcode bits. -/
def RREG : Nat := 0b1010000000000000

/-- The WREG opcode bits. -/
def WREG : Nat := 0b0110000000000000

def ADDR_BITS : Nat := 7

def N_BITS : Nat := 6

/-- `xreg` from `command.rs`: `cmd | (addr << N_BITS) | (n - 1)`.  The
`debug_assert!` preconditions `addr < 1 << ADDR_BITS` and
`n - 1 < 1 << N_BITS` become hypotheses of the theorems below. -/
def xreg (cmd addr n : Nat) : Nat :=
  cmd ||| (addr <<< N_BITS) ||| (n - 1)

/-- `rreg`: read `n` contiguous registers starting at `addr`. -/
def rreg (addr n : Nat) : Nat := xreg RREG addr n

/-- `wreg`: write `n` contiguous registers starting at `addr`. -/
def wreg (addr n : Nat) : Nat := xreg WREG addr n

/-! ### CRC-16 engine (`crc16_ccitt_const` in `lib.rs`) -/

/-- One round of the inner bit loop: shift left (mod 2^16), XOR with the
polynomial 0x1021 when the top bit was set. -/
def crc16_round (crc : Nat) : Nat :=
  if crc &&& 0x8000 ≠ 0 then ((crc <<< 1) ^^^ 0x1021) % 65536
  else (crc <<< 1) % 65536

/-- The 8-fold iteration of the bit loop. -/
def crc16_rounds : Nat → Nat → Nat
  | 0, crc => crc
  | k + 1, crc => crc16_rounds k (crc16_round crc)

/-- `crc16_ccitt_const`: initial value 0xFFFF; per input byte, XOR the byte
into the high half and run 8 bit rounds. -/
def crc16_ccitt_const (data : List Nat) : Nat :=
  data.foldl (fun crc b => crc16_rounds 8 (crc ^^^ ((b <<< 8) % 65536))) 0xFFFF

/-! ### Frame verification (`get_verified_data` in `lib.rs`) -/

/-- `ErrorKind` as used by `lib.rs` (`ErrorKind::CrcMismatch`). -/
inductive ErrorKind where
  | crcMismatch
deriving DecidableEq, Repr

/-- `get_verified_data`: split off the trailing CRC word
(`BYTES_PER_WORD` bytes), read its leading two bytes as a big-endian u16,
recompute the CRC over the preceding data, and return the data exactly when
they agree. -/
def get_verified_data (buf : List Nat) : Except ErrorKind (List Nat) :=
  let data := buf.take (buf.length - BYTES_PER_WORD)
  let crc_word := buf.drop (buf.length - BYTES_PER_WORD)
  let received_crc := 256 * crc_word.getD 0 0 + crc_word.getD 1 0
  if received_crc = crc16_ccitt_const data then .ok data
  else .error .crcMismatch

/-! ### Frame construction (`write_word_const` / `write_command_const`) -/

/-- `write_word_const` for one word slot with `BYTES_PER_WORD = 3`: the
big-endian u16 followed by a zero pad byte. -/
def write_word (word : Nat) : List Nat :=
  [word / 256 % 256, word % 256, 0]

/-- The length `write_command_const` asserts for its destination buffer:
`(words.len() + ENABLE_INPUT_CRC as usize) * BYTES_PER_WORD`. -/
def write_command_expected_len (wordsLen : Nat) : Nat :=
  (wordsLen + (if ENABLE_INPUT_CRC then 1 else 0)) * BYTES_PER_WORD

/-- The `debug_assert!(buf.len() == expected_len)` at the top of
`write_command_const`. -/
def write_command_assert (bufLen wordsLen : Nat) : Bool :=
  bufLen == write_command_expected_len wordsLen

/-- The buffer produced by `write_command_const` on an all-zero buffer of
length `bufLen`: the command words, the CRC word over them, and the
untouched zero tail. -/
def write_command_const (bufLen : Nat) (words : List Nat) : List Nat :=
  let data := (words.map write_word).flatten
  let withCrc := data ++ write_word (crc16_ccitt_const data)
  withCrc ++ List.replicate (bufLen - withCrc.length) 0

def SHORT_FRAME_WORDS : Nat := 1 + (if ENABLE_INPUT_CRC then 1 else 0)

def SHORT_FRAME_BYTES : Nat := SHORT_FRAME_WORDS * BYTES_PER_WORD

/-- The number of words in a normal frame: command/response, channel data,
output CRC. -/
def NORMAL_FRAME_WORDS : Nat := 1 + CHANNELS + 1

def NORMAL_FRAME_BYTES : Nat := NORMAL_FRAME_WORDS * BYTES_PER_WORD

/-- `build_short_frame`. -/
def build_short_frame (command : Nat) : List Nat :=
  write_command_const SHORT_FRAME_BYTES [command]

/-- `build_normal_frame`. -/
def build_normal_frame (command : Nat) : List Nat :=
  write_command_const NORMAL_FRAME_BYTES [command]

/-! ### C6: frame verification returns the data portion iff the CRC matches -/

theorem getD_drop (l : List Nat) (i j : Nat) :
    (l.drop i).getD j 0 = l.getD (i + j) 0 := by
  simp [List.getD_eq_getElem?_getD, List.getElem?_drop]

/-- C6: for every frame buffer at least one word long, `get_verified_data`
returns `Ok` with exactly the data portion preceding the trailing CRC word
iff the CRC-16 recomputed over that portion equals the big-endian 16-bit
value in the trailing word's leading two bytes; on mismatch it returns the
`CrcMismatch` error, which carries no data. -/
theorem get_verified_data_spec (buf : List Nat) (h : 3 ≤ buf.length) :
    (get_verified_data buf = .ok (buf.take (buf.length - 3)) ↔
        256 * buf.getD (buf.length - 3) 0 + buf.getD (buf.length - 2) 0 =
          crc16_ccitt_const (buf.take (buf.length - 3))) ∧
      (256 * buf.getD (buf.length - 3) 0 + buf.getD (buf.length - 2) 0 ≠
          crc16_ccitt_const (buf.take (buf.length - 3)) →
        get_verified_data buf = .error .crcMismatch) := by
  have e0 : (buf.drop (buf.length - 3)).getD 0 0 = buf.getD (buf.length - 3) 0 := by
    rw [getD_drop]
    simp
  have e1 : (buf.drop (buf.length - 3)).getD 1 0 = buf.getD (buf.length - 2) 0 := by
    rw [getD_drop]
    have : buf.length - 3 + 1 = buf.length - 2 := by omega
    rw [this]
  unfold get_verified_data
  simp only [BYTES_PER_WORD, e0, e1]
  by_cases hcrc : 256 * buf.getD (buf.length - 3) 0 + buf.getD (buf.length - 2) 0 =
      crc16_ccitt_const (buf.take (buf.length - 3))
  · rw [if_pos hcrc]
    refine ⟨⟨fun _ => hcrc, fun _ => rfl⟩, fun hne => absurd hcrc hne⟩
  · rw [if_neg hcrc]
    refine ⟨⟨fun hc => absurd hc (by simp), fun hc => absurd hc hcrc⟩, fun _ => rfl⟩

/-- C6 witness: `get_verified_data_spec` instantiated at a concrete 6-byte
frame (two 3-byte words). -/
theorem get_verified_data_spec_witness :
    3 ≤ ([1, 2, 3, 0, 0, 0] : List Nat).length ∧
      ((get_verified_data [1, 2, 3, 0, 0, 0] =
            .ok (([1, 2, 3, 0, 0, 0] : List Nat).take (([1, 2, 3, 0, 0, 0] : List Nat).length - 3)) ↔
          256 * ([1, 2, 3, 0, 0, 0] : List Nat).getD (([1, 2, 3, 0, 0, 0] : List Nat).length - 3) 0 +
              ([1, 2, 3, 0, 0, 0] : List Nat).getD (([1, 2, 3, 0, 0, 0] : List Nat).length - 2) 0 =
            crc16_ccitt_const (([1, 2, 3, 0, 0, 0] : List Nat).take
              (([1, 2, 3, 0, 0, 0] : List Nat).length - 3))) ∧
        (256 * ([1, 2, 3, 0, 0, 0] : List Nat).getD (([1, 2, 3, 0, 0, 0] : List Nat).length - 3) 0 +
            ([1, 2, 3, 0, 0, 0] : List Nat).getD (([1, 2, 3, 0, 0, 0] : List Nat).length - 2) 0 ≠
          crc16_ccitt_const (([1, 2, 3, 0, 0, 0] : List Nat).take
            (([1, 2, 3, 0, 0, 0] : List Nat).length - 3)) →
          get_verified_data [1, 2, 3, 0, 0, 0] = .error .crcMismatch)) :=
  ⟨by decide, get_verified_data_spec [1, 2, 3, 0, 0, 0] (by decide)⟩

/-! ### C7: command-word packing -/

theorem lor_disjoint_add (k a b : Nat) (hb : b < 2 ^ k) :
    (2 ^ k * a) ||| b = 2 ^ k * a + b :=
  (Nat.mul_add_lt_is_or hb a).symm

/-- The OR-packing in `xreg` equals the sum of the three disjoint fields. -/
theorem xreg_eq (m addr n : Nat) (haddr : addr < 128) (hn : n - 1 < 64) :
    xreg (8192 * m) addr n = 8192 * m + 64 * addr + (n - 1) := by
  unfold xreg N_BITS
  rw [Nat.shiftLeft_eq]
  have e6 : (2 : Nat) ^ 6 = 64 := by norm_num
  have h1 : (8192 * m) ||| (addr * 2 ^ 6) = 8192 * m + 64 * addr := by
    have h := lor_disjoint_add 13 m (addr * 2 ^ 6) (by rw [e6]; norm_num; omega)
    have e13 : (2 : Nat) ^ 13 = 8192 := by norm_num
    rw [e13] at h
    rw [h, e6]
    ring
  rw [h1]
  have h2 : (8192 * m + 64 * addr) ||| (n - 1) = 8192 * m + 64 * addr + (n - 1) := by
    have e : 8192 * m + 64 * addr = 2 ^ 6 * (128 * m + addr) := by rw [e6]; ring
    rw [e, lor_disjoint_add 6 (128 * m + addr) (n - 1) (by rw [e6]; omega), ← e]
  rw [h2]

/-- C7: command-word packing.  For `addr < 128` and `1 ≤ n ≤ 64`, `rreg` and
`wreg` pack the opcode bits, the 7-bit address field shifted by 6, and the
6-bit count−1 field; the OR of the fields equals their sum (the fields do
not overlap), and each field is recoverable from the packed word: the low 6
bits are `n − 1`, bits 6..12 are `addr`, and bits 13..15 are the opcode. -/
theorem command_word_packing (addr n : Nat) (haddr : addr < 128) (h1 : 1 ≤ n)
    (h64 : n ≤ 64) :
    rreg addr n = RREG + 64 * addr + (n - 1) ∧
      wreg addr n = WREG + 64 * addr + (n - 1) ∧
      rreg addr n % 64 = n - 1 ∧ rreg addr n / 64 % 128 = addr ∧
      rreg addr n / 8192 = 5 ∧
      wreg addr n % 64 = n - 1 ∧ wreg addr n / 64 % 128 = addr ∧
      wreg addr n / 8192 = 3 := by
  have hn : n - 1 < 64 := by omega
  have hr : rreg addr n = 8192 * 5 + 64 * addr + (n - 1) := by
    have : RREG = 8192 * 5 := by norm_num [RREG]
    rw [rreg, this]
    exact xreg_eq 5 addr n haddr hn
  have hw : wreg addr n = 8192 * 3 + 64 * addr + (n - 1) := by
    have : WREG = 8192 * 3 := by norm_num [WREG]
    rw [wreg, this]
    exact xreg_eq 3 addr n haddr hn
  have hR : RREG = 8192 * 5 := by norm_num [RREG]
  have hW : WREG = 8192 * 3 := by norm_num [WREG]
  refine ⟨by rw [hr, hR], by rw [hw, hW], ?_, ?_, ?_, ?_, ?_, ?_⟩ <;>
    simp only [hr, hw] <;> omega

/-- C7 witness: the packing theorem instantiated at `addr = 5`, `n = 3`. -/
theorem command_word_packing_witness :
    (5 : Nat) < 128 ∧ (1 : Nat) ≤ 3 ∧ (3 : Nat) ≤ 64 ∧
      (rreg 5 3 = RREG + 64 * 5 + (3 - 1) ∧
        wreg 5 3 = WREG + 64 * 5 + (3 - 1) ∧
        rreg 5 3 % 64 = 3 - 1 ∧ rreg 5 3 / 64 % 128 = 5 ∧ rreg 5 3 / 8192 = 5 ∧
        wreg 5 3 % 64 = 3 - 1 ∧ wreg 5 3 / 64 % 128 = 5 ∧ wreg 5 3 / 8192 = 3) :=
  ⟨by decide, by decide, by decide, command_word_packing 5 3 (by decide) (by decide) (by decide)⟩

/-! ### C8: reset completion -/

/-- `ResetError` from `error.rs`: the device did not reset as expected. -/
structure ResetError where
deriving DecidableEq, Repr

/-- The driver error type as used in `lib.rs` (`Error::spi` wrapping a
transport error, `ErrorKind` for protocol-integrity failures). -/
inductive DriverError (ε : Type) where
  | spi (e : ε)
  | kind (k : ErrorKind)

/-- Modelled from the spec: the body of `Ads131m08::reset_device_complete`
after the transport exchange is `todo!()` in the source (`lib.rs`), so the
response check is missing from the code; only the short no-operation frame
exchange is present.  Following §4.6 of the spec: send a short no-operation
frame, compare the returned response word against the expected pattern
`0xFF20 | channel_count`, return success on a match and a semantic
reset-failure (`ResetError`, the inner layer of a two-level result, distinct
from a transport error) on a mismatch; a transport error is surfaced to the
caller.  The transport is modelled as a function from the written frame to
either a transport error or the full-duplex response buffer. -/
def reset_device_complete {ε : Type} (transfer : List Nat → Except ε (List Nat)) :
    Except (DriverError ε) (Except ResetError Unit) :=
  match transfer (build_short_frame NULL) with
  | .error e => .error (.spi e)
  | .ok resp =>
    let response_word := 256 * resp.getD 0 0 + resp.getD 1 0
    if response_word = 0xFF20 ||| CHANNELS then .ok (.ok ())
    else .ok (.error ⟨⟩)

/-- C8: `reset_device_complete` sends the short no-operation frame; a
transport error is surfaced as-is; otherwise the returned response word is
compared against `0xFF20 | channel_count`: a match yields success and a
mismatch yields the semantic reset-failure outcome (the inner layer of the
result, distinct from a transport error). -/
theorem reset_device_complete_spec {ε : Type} (transfer : List Nat → Except ε (List Nat)) :
    (∀ e, transfer (build_short_frame NULL) = .error e →
        reset_device_complete transfer = .error (.spi e)) ∧
      (∀ resp, transfer (build_short_frame NULL) = .ok resp →
        (256 * resp.getD 0 0 + resp.getD 1 0 = 0xFF20 ||| CHANNELS →
            reset_device_complete transfer = .ok (.ok ())) ∧
          (256 * resp.getD 0 0 + resp.getD 1 0 ≠ 0xFF20 ||| CHANNELS →
            reset_device_complete transfer = .ok (.error ⟨⟩))) := by
  unfold reset_device_complete
  refine ⟨fun e he => ?_, fun resp hresp => ⟨fun hmatch => ?_, fun hmiss => ?_⟩⟩
  · rw [he]
  · rw [hresp]
    simp only []
    rw [if_pos hmatch]
  · rw [hresp]
    simp only []
    rw [if_neg hmiss]

/-- C8 witness: a transport returning the matching response word
`0xFF28 = 0xFF20 | 8` yields success; one returning zeros yields the
semantic reset failure; an erroring transport is surfaced. -/
theorem reset_device_complete_spec_witness :
    reset_device_complete (fun _ => (.ok [255, 40, 0, 0, 0, 0] : Except Unit (List Nat))) =
        .ok (.ok ()) ∧
      reset_device_complete (fun _ => (.ok [0, 0, 0, 0, 0, 0] : Except Unit (List Nat))) =
        .ok (.error ⟨⟩) ∧
      reset_device_complete (fun _ => (.error () : Except Unit (List Nat))) =
        .error (.spi ()) :=
  ⟨((reset_device_complete_spec _).2 [255, 40, 0, 0, 0, 0] rfl).1 (by decide),
    ((reset_device_complete_spec _).2 [0, 0, 0, 0, 0, 0] rfl).2 (by decide),
    (reset_device_complete_spec _).1 () rfl⟩

/-! ### C10: the frame-builder assertion -/

/-- C10: the `debug_assert!` in `write_command_const` is violated by the
driver's own normal-frame call sites: `build_normal_frame` (used by
`reset_device_start`) and the buffer built inside `read_adc_data` pass a
`NORMAL_FRAME_BYTES = 30`-byte buffer with a single command word, while the
assertion demands `(1 + 1) * BYTES_PER_WORD = 6` bytes; the short-frame call
site does satisfy it. -/
theorem write_command_assert_call_sites :
    write_command_assert NORMAL_FRAME_BYTES 1 = false ∧
      write_command_assert SHORT_FRAME_BYTES 1 = true ∧
      NORMAL_FRAME_BYTES = 30 ∧ write_command_expected_len 1 = 6 := by
  decide

/-! ### C9: channel sign extension in `read_adc_data` -/

/-- `chunks_exact(BYTES_PER_WORD)` with `BYTES_PER_WORD = 3`: the 3-byte
channel words, any shorter remainder dropped. -/
def chunks3 : List Nat → List (List Nat)
  | a :: b :: c :: rest => [a, b, c] :: chunks3 rest
  | _ => []

/-- `i32::from_be_bytes`: the signed 32-bit value of four big-endian bytes
(two's complement). -/
def i32_from_be (b0 b1 b2 b3 : Nat) : Int :=
  if ((b0 * 256 + b1) * 256 + b2) * 256 + b3 < 2 ^ 31 then
    ((((b0 * 256 + b1) * 256 + b2) * 256 + b3 : Nat) : Int)
  else ((((b0 * 256 + b1) * 256 + b2) * 256 + b3 : Nat) : Int) - 2 ^ 32

/-- The per-word computation in `read_adc_data`: place the 3 word bytes in
the top of a 32-bit field (`value[..3].copy_from_slice(word)`; byte 3 stays
0) and arithmetic-shift right by `(4 - BYTES_PER_WORD) * 8 = 8` bits.  The
arithmetic shift of an `i32` is floor division by `2^8 = 256`. -/
def sign_extend_word (w : List Nat) : Int :=
  (i32_from_be (w.getD 0 0) (w.getD 1 0) (w.getD 2 0) 0).fdiv 256

/-- The value computation of `read_adc_data` after the transport exchange:
verify the CRC, drop the leading response word, and sign-extend each 3-byte
channel word. -/
def read_adc_values (buf : List Nat) : Except ErrorKind (List Int) :=
  match get_verified_data buf with
  | .error e => .error e
  | .ok data => .ok ((chunks3 (data.drop BYTES_PER_WORD)).map sign_extend_word)

/-- `channels.iter_mut().zip(values).for_each(...)`: overwrite the leading
entries of `channels` with `values`. -/
def zipWrite : List Int → List Int → List Int
  | [], _ => []
  | c, [] => c
  | _ :: cs, v :: vs => v :: zipWrite cs vs

/-- `read_adc_data` given the buffer returned by the transport exchange and
the caller's channel array. -/
def read_adc_data (channels : List Int) (buf : List Nat) : Except ErrorKind (List Int) :=
  match read_adc_values buf with
  | .error e => .error e
  | .ok values => .ok (zipWrite channels values)

/-- Written from the spec's words, for the refinement in C9: the
two's-complement sign extension of a 24-bit integer to 32 bits. -/
def signExtend24_spec (v : Nat) : Int :=
  if v < 2 ^ 23 then (v : Int) else (v : Int) - 2 ^ 24

theorem zipWrite_eq_of_length (c v : List Int) (h : c.length = v.length) :
    zipWrite c v = v := by
  induction c generalizing v with
  | nil =>
    have : v = [] := List.length_eq_zero.mp (by simpa using h.symm)
    subst this
    rfl
  | cons x cs ih =>
    cases v with
    | nil => simp at h
    | cons y vs =>
      simp only [zipWrite]
      rw [ih vs (by simpa using h)]

/-- The code's shift computation coincides with the spec's sign extension on
byte-range inputs. -/
theorem sign_extend_word_eq (a b c : Nat) (ha : a < 256) (hb : b < 256) (hc : c < 256) :
    sign_extend_word [a, b, c] = signExtend24_spec ((a * 256 + b) * 256 + c) := by
  unfold sign_extend_word i32_from_be signExtend24_spec
  have hg0 : ([a, b, c] : List Nat).getD 0 0 = a := rfl
  have hg1 : ([a, b, c] : List Nat).getD 1 0 = b := rfl
  have hg2 : ([a, b, c] : List Nat).getD 2 0 = c := rfl
  rw [hg0, hg1, hg2]
  by_cases h : (a * 256 + b) * 256 + c < 2 ^ 23
  · rw [if_pos (by omega), if_pos h]
    have e : ((((a * 256 + b) * 256 + c) * 256 + 0 : Nat) : Int) =
        (((a * 256 + b) * 256 + c : Nat) : Int) * 256 := by
      push_cast
      ring
    rw [e, Int.mul_fdiv_cancel _ (by norm_num)]
  · rw [if_neg (by omega), if_neg h]
    have e : ((((a * 256 + b) * 256 + c) * 256 + 0 : Nat) : Int) - 2 ^ 32 =
        ((((a * 256 + b) * 256 + c : Nat) : Int) - 2 ^ 24) * 256 := by
      push_cast
      ring
    rw [e, Int.mul_fdiv_cancel _ (by norm_num)]

/-- C9: in `read_adc_data`, after a successful exchange whose trailing CRC
word matches, each of the 8 output entries is the two's-complement sign
extension to 32 bits of the corresponding 3-byte MSB-first channel word of
the response (the response being the leading word, 8 channel words, and the
trailing CRC word). -/
theorem read_adc_data_sign_extends (channels : List Int)
    (r0 r1 r2 c0 c1 c2 c3 c4 c5 c6 c7 c8 c9 c10 c11 c12 c13 c14 c15 c16 c17 c18 c19 c20 c21 c22 c23 k0 k1 k2 : Nat)
    (hch : channels.length = 8)
    (hc : ∀ b ∈ ([c0, c1, c2, c3, c4, c5, c6, c7, c8, c9, c10, c11, c12, c13, c14, c15, c16, c17, c18, c19, c20, c21, c22, c23] : List Nat), b < 256)
    (hcrc : 256 * k0 + k1 =
      crc16_ccitt_const [r0, r1, r2, c0, c1, c2, c3, c4, c5, c6, c7, c8, c9, c10, c11, c12, c13, c14, c15, c16, c17, c18, c19, c20, c21, c22, c23]) :
    read_adc_data channels [r0, r1, r2, c0, c1, c2, c3, c4, c5, c6, c7, c8, c9, c10, c11, c12, c13, c14, c15, c16, c17, c18, c19, c20, c21, c22, c23, k0, k1, k2] =
      .ok [signExtend24_spec ((c0 * 256 + c1) * 256 + c2),
        signExtend24_spec ((c3 * 256 + c4) * 256 + c5),
        signExtend24_spec ((c6 * 256 + c7) * 256 + c8),
        signExtend24_spec ((c9 * 256 + c10) * 256 + c11),
        signExtend24_spec ((c12 * 256 + c13) * 256 + c14),
        signExtend24_spec ((c15 * 256 + c16) * 256 + c17),
        signExtend24_spec ((c18 * 256 + c19) * 256 + c20),
        signExtend24_spec ((c21 * 256 + c22) * 256 + c23)] := by
  have hver : get_verified_data [r0, r1, r2, c0, c1, c2, c3, c4, c5, c6, c7, c8, c9, c10, c11, c12, c13, c14, c15, c16, c17, c18, c19, c20, c21, c22, c23, k0, k1, k2] =
      .ok [r0, r1, r2, c0, c1, c2, c3, c4, c5, c6, c7, c8, c9, c10, c11, c12, c13, c14, c15, c16, c17, c18, c19, c20, c21, c22, c23] := by
    unfold get_verified_data
    dsimp only
    rw [show ([r0, r1, r2, c0, c1, c2, c3, c4, c5, c6, c7, c8, c9, c10, c11, c12, c13, c14, c15, c16, c17, c18, c19, c20, c21, c22, c23, k0, k1, k2] : List Nat).take
        (([r0, r1, r2, c0, c1, c2, c3, c4, c5, c6, c7, c8, c9, c10, c11, c12, c13, c14, c15, c16, c17, c18, c19, c20, c21, c22, c23, k0, k1, k2] : List Nat).length - BYTES_PER_WORD) =
        [r0, r1, r2, c0, c1, c2, c3, c4, c5, c6, c7, c8, c9, c10, c11, c12, c13, c14, c15, c16, c17, c18, c19, c20, c21, c22, c23] from rfl]
    rw [show (([r0, r1, r2, c0, c1, c2, c3, c4, c5, c6, c7, c8, c9, c10, c11, c12, c13, c14, c15, c16, c17, c18, c19, c20, c21, c22, c23, k0, k1, k2] : List Nat).drop
        (([r0, r1, r2, c0, c1, c2, c3, c4, c5, c6, c7, c8, c9, c10, c11, c12, c13, c14, c15, c16, c17, c18, c19, c20, c21, c22, c23, k0, k1, k2] : List Nat).length - BYTES_PER_WORD)).getD 0 0 =
        k0 from rfl]
    rw [show (([r0, r1, r2, c0, c1, c2, c3, c4, c5, c6, c7, c8, c9, c10, c11, c12, c13, c14, c15, c16, c17, c18, c19, c20, c21, c22, c23, k0, k1, k2] : List Nat).drop
        (([r0, r1, r2, c0, c1, c2, c3, c4, c5, c6, c7, c8, c9, c10, c11, c12, c13, c14, c15, c16, c17, c18, c19, c20, c21, c22, c23, k0, k1, k2] : List Nat).length - BYTES_PER_WORD)).getD 1 0 =
        k1 from rfl]
    rw [if_pos hcrc]
  unfold read_adc_data read_adc_values
  rw [hver]
  simp only []
  have hdrop : ([r0, r1, r2, c0, c1, c2, c3, c4, c5, c6, c7, c8, c9, c10, c11, c12, c13, c14, c15, c16, c17, c18, c19, c20, c21, c22, c23] : List Nat).drop BYTES_PER_WORD =
      [c0, c1, c2, c3, c4, c5, c6, c7, c8, c9, c10, c11, c12, c13, c14, c15, c16, c17, c18, c19, c20, c21, c22, c23] := rfl
  rw [hdrop]
  have hchunks : chunks3 [c0, c1, c2, c3, c4, c5, c6, c7, c8, c9, c10, c11, c12, c13, c14, c15, c16, c17, c18, c19, c20, c21, c22, c23] =
      [[c0, c1, c2], [c3, c4, c5], [c6, c7, c8], [c9, c10, c11], [c12, c13, c14], [c15, c16, c17], [c18, c19, c20], [c21, c22, c23]] := rfl
  rw [hchunks]
  simp only [List.map_cons, List.map_nil]
  rw [zipWrite_eq_of_length _ _ (by simp [hch])]
  rw [sign_extend_word_eq c0 c1 c2 (hc c0 (by simp)) (hc c1 (by simp)) (hc c2 (by simp))]
  rw [sign_extend_word_eq c3 c4 c5 (hc c3 (by simp)) (hc c4 (by simp)) (hc c5 (by simp))]
  rw [sign_extend_word_eq c6 c7 c8 (hc c6 (by simp)) (hc c7 (by simp)) (hc c8 (by simp))]
  rw [sign_extend_word_eq c9 c10 c11 (hc c9 (by simp)) (hc c10 (by simp)) (hc c11 (by simp))]
  rw [sign_extend_word_eq c12 c13 c14 (hc c12 (by simp)) (hc c13 (by simp)) (hc c14 (by simp))]
  rw [sign_extend_word_eq c15 c16 c17 (hc c15 (by simp)) (hc c16 (by simp)) (hc c17 (by simp))]
  rw [sign_extend_word_eq c18 c19 c20 (hc c18 (by simp)) (hc c19 (by simp)) (hc c20 (by simp))]
  rw [sign_extend_word_eq c21 c22 c23 (hc c21 (by simp)) (hc c22 (by simp)) (hc c23 (by simp))]

set_option maxRecDepth 4000 in
/-- C9 witness: the sign-extension theorem instantiated at an all-zero
response whose trailing CRC word carries `crc16([0; 27]) = 0x7853`. -/
theorem read_adc_data_sign_extends_witness :
    ([0, 0, 0, 0, 0, 0, 0, 0] : List Int).length = 8 ∧
      (∀ b ∈ ([0, 0, 0, 0, 0, 0, 0, 0, 0, 0, 0, 0, 0, 0, 0, 0, 0, 0, 0, 0, 0, 0, 0, 0] : List Nat), b < 256) ∧
      256 * 120 + 83 = crc16_ccitt_const [0, 0, 0, 0, 0, 0, 0, 0, 0, 0, 0, 0, 0, 0, 0, 0, 0, 0, 0, 0, 0, 0, 0, 0, 0, 0, 0] ∧
      read_adc_data [0, 0, 0, 0, 0, 0, 0, 0] [0, 0, 0, 0, 0, 0, 0, 0, 0, 0, 0, 0, 0, 0, 0, 0, 0, 0, 0, 0, 0, 0, 0, 0, 0, 0, 0, 120, 83, 0] =
        .ok [signExtend24_spec ((0 * 256 + 0) * 256 + 0),
          signExtend24_spec ((0 * 256 + 0) * 256 + 0),
          signExtend24_spec ((0 * 256 + 0) * 256 + 0),
          signExtend24_spec ((0 * 256 + 0) * 256 + 0),
          signExtend24_spec ((0 * 256 + 0) * 256 + 0),
          signExtend24_spec ((0 * 256 + 0) * 256 + 0),
          signExtend24_spec ((0 * 256 + 0) * 256 + 0),
          signExtend24_spec ((0 * 256 + 0) * 256 + 0)] :=
  ⟨by decide, by decide, by decide,
    read_adc_data_sign_extends [0, 0, 0, 0, 0, 0, 0, 0] 0 0 0 0 0 0 0 0 0 0 0 0 0 0 0 0 0 0 0 0 0 0 0 0 0 0 0 120 83 0
      (by decide) (by decide) (by decide)⟩

end Ads131m08
